import Mathlib

/-
Verification of the Filesystem Operations Engine of the inkdown desktop
application (apps/desktop/src-tauri/src/lib.rs).

The engine is shallowly embedded: the OS filesystem is modelled as a finite
association list from paths to entries, a path being its list of components
(`PathBuf::join` is list append, `Path::parent` drops the last component,
`Path::file_name` is the last component).  Every Rust function that mutates
the disk becomes a Lean function threading the filesystem value and returning
the `Result` alongside the final filesystem state, so that error paths still
expose the state of the disk.  Unbounded recursion over the on-disk tree
(`read_directory_recursive`, `copy_dir_recursive`, the collision probe loop)
is embedded with an explicit structural bound so that every definition
evaluates inside the kernel.
-/

/-- A filesystem path, as its list of components. -/
abbrev FsPath := List String

/-- Rendering of a path for error messages (stands in for `Path::display`). -/
def pathStr (p : FsPath) : String :=
  String.intercalate "/" p

/-- The kind of an on-disk entry: a regular file with its byte content
(bytes as naturals below 256), or a directory. -/
inductive EntryKind where
  | file (content : List Nat)
  | dir

/-- One on-disk entry.  `metaOk` models whether reading the entry and its
metadata succeeds (an OS-level permission or I/O failure when `false`);
`modified` is the best-effort modification timestamp
(`metadata.modified().ok()`), absent when the OS cannot supply it. -/
structure Entry where
  kind : EntryKind
  metaOk : Bool
  modified : Option Nat

/-- Whether an entry is a directory (`metadata.is_dir()`). -/
def entryIsDir (e : Entry) : Bool :=
  match e.kind with
  | EntryKind.dir => true
  | EntryKind.file _ => false

/-- Byte length of a file entry (`metadata.len()`); `0` for directories,
where the source never reads it. -/
def entrySize (e : Entry) : Nat :=
  match e.kind with
  | EntryKind.file c => c.length
  | EntryKind.dir => 0

/-- A readable directory entry. -/
def dirE : Entry := ⟨EntryKind.dir, true, none⟩

/-- A readable file entry with the given content. -/
def fileE (c : List Nat) : Entry := ⟨EntryKind.file c, true, none⟩

/-- A file entry whose metadata cannot be read. -/
def badE : Entry := ⟨EntryKind.file [], false, none⟩

/-- The filesystem: a finite association list from paths to entries.  The
first binding of a path shadows later ones. -/
abbrev Fs := List (FsPath × Entry)

/-- Look a path up in the filesystem. -/
def fsLookup (fs : Fs) (p : FsPath) : Option Entry :=
  match fs with
  | [] => none
  | (q, e) :: rest => if q = p then some e else fsLookup rest p

/-- Remove every binding of a path. -/
def fsRemove : Fs → FsPath → Fs
  | [], _ => []
  | (q, e) :: rest, p =>
    if q = p then fsRemove rest p else (q, e) :: fsRemove rest p

/-- Bind a path to an entry, replacing any previous binding. -/
def fsInsert (fs : Fs) (p : FsPath) (e : Entry) : Fs :=
  (p, e) :: fsRemove fs p

/-- `Path::exists`. -/
def pathExists (fs : Fs) (p : FsPath) : Bool :=
  (fsLookup fs p).isSome

/-- `Path::is_dir`. -/
def isDir (fs : Fs) (p : FsPath) : Bool :=
  match fsLookup fs p with
  | some e => entryIsDir e
  | none => false

/-- `Path::is_file`. -/
def isFile (fs : Fs) (p : FsPath) : Bool :=
  match fsLookup fs p with
  | some e => !entryIsDir e
  | none => false

/-- `Path::parent`: drop the last component; `None` for the empty path. -/
def parentOf : FsPath → Option FsPath
  | [] => none
  | p => some p.dropLast

/-- The direct children of a directory path, in filesystem-list order
(`fs::read_dir`; the OS enumeration order is unspecified, the source sorts
afterwards): the entries bound at `p ++ [n]`, with their last component. -/
def childrenOf (fs : Fs) (p : FsPath) : List (String × Entry) :=
  fs.filterMap (fun pr =>
    match pr.1.getLast? with
    | some n => if pr.1.dropLast = p then some (n, pr.2) else none
    | none => none)

/-- Worker for `fs::create_dir_all`: walk the remaining components, creating
each missing prefix as a directory; fail if a prefix exists as a file
(partially created directories are left in place, as on a real OS). -/
def createDirAllGo : Fs → FsPath → List String → Except String Unit × Fs
  | fs, _, [] => (Except.ok (), fs)
  | fs, pre, c :: rest =>
    let q := pre ++ [c]
    match fsLookup fs q with
    | some e =>
      if entryIsDir e then createDirAllGo fs q rest
      else (Except.error ("File exists: " ++ pathStr q), fs)
    | none => createDirAllGo (fsInsert fs q dirE) q rest

/-- `fs::create_dir_all`: create the path and all missing parents. -/
def createDirAll (fs : Fs) (p : FsPath) : Except String Unit × Fs :=
  createDirAllGo fs [] p

/-- Split a list of characters at its last `'.'`, if any: `some (before,
after)` for the last dot. -/
def lastDotSplit : List Char → Option (List Char × List Char)
  | [] => none
  | c :: cs =>
    match lastDotSplit cs with
    | some (b, a) => some (c :: b, a)
    | none => if c = '.' then some ([], cs) else none

/-- Rust's `Path::file_stem` / `Path::extension` on a file name: the name is
split at its last dot, except that a dot in first position (hidden files such
as `.gitignore`) or no dot at all yields the whole name as the stem and no
extension. -/
def fileStemExt (n : String) : String × Option String :=
  match lastDotSplit n.data with
  | none => (n, none)
  | some ([], _) => (n, none)
  | some (b, a) => (String.mk b, some (String.mk a))

/-- The candidate file name probed at step `k` of collision resolution:
`"{stem} (copy){suffix}"` for the first probe, `"{stem} (copy k){suffix}"`
for `k ≥ 2`. -/
def candName (file_stem ext_suffix : String) (k : Nat) : String :=
  if k ≤ 1 then file_stem ++ " (copy)" ++ ext_suffix
  else file_stem ++ " (copy " ++ toString k ++ ")" ++ ext_suffix

/-- The `k`-th collision candidate path for a desired destination: the parent
joined with `candName` of the stem/extension split of the last component. -/
def copyCandidate (final_dest : FsPath) (k : Nat) : FsPath :=
  match final_dest.getLast? with
  | none => final_dest
  | some fname =>
    match fileStemExt fname with
    | (file_stem, extOpt) =>
      let extension := extOpt.getD ""
      let ext_suffix := if extension = "" then "" else "." ++ extension
      final_dest.dropLast ++ [candName file_stem ext_suffix k]

/-- The collision probe loop of `copy_file` (`let mut counter = 2; while
target_path.exists() { ... }`).  The Rust loop rebinds `target_path` to the
candidate for `counter`, increments `counter`, and aborts with
"Too many copies already exist" as soon as `counter` exceeds 1000 — that is,
right after building the candidate for `counter = 1000` and without testing
it.  `gas` is the embedded loop bound `1000 - counter`: the loop starts at
`counter = 2` with `gas = 998`, and when `gas` reaches `0` (so `counter`
reached `1000`) a still-existing target aborts exactly as in the source. -/
def probeLoop (fs : Fs) (parent : FsPath) (file_stem ext_suffix : String) :
    Nat → Nat → FsPath → Except String FsPath
  | _, 0, target =>
    if pathExists fs target then Except.error "Too many copies already exist"
    else Except.ok target
  | counter, gas + 1, target =>
    if pathExists fs target then
      probeLoop fs parent file_stem ext_suffix (counter + 1) gas
        (parent ++ [file_stem ++ " (copy " ++ toString counter ++ ")" ++ ext_suffix])
    else Except.ok target

/-- Collision resolution of `copy_file` (the block duplicated at
lib.rs:618-646 for directories and lib.rs:666-697 for files; the two copies
are identical except for the error message on a nameless path, which is the
`stemErr` parameter): if the desired destination exists, split its name into
stem and extension and probe `"{stem} (copy){ext}"`,
`"{stem} (copy 2){ext}"`, ... for the first free name. -/
def resolveCollision (fs : Fs) (stemErr : String) (final_dest : FsPath) :
    Except String FsPath :=
  if pathExists fs final_dest then
    match final_dest.getLast? with
    | none => Except.error stemErr
    | some fname =>
      match fileStemExt fname with
      | (file_stem, extOpt) =>
        let extension := extOpt.getD ""
        match parentOf final_dest with
        | none => Except.error "Invalid parent directory"
        | some parent =>
          let ext_suffix := if extension = "" then "" else "." ++ extension
          probeLoop fs parent file_stem ext_suffix 2 998
            (parent ++ [file_stem ++ " (copy)" ++ ext_suffix])
  else Except.ok final_dest

/-- `fs::copy`: copy the content of a source file to a destination path,
overwriting it; fails if the source is not a readable file. -/
def fsCopy (fs : Fs) (src dst : FsPath) : Except String Fs :=
  match fsLookup fs src with
  | some ⟨EntryKind.file c, _, _⟩ =>
    Except.ok (fsInsert fs dst ⟨EntryKind.file c, true, none⟩)
  | _ => Except.error ("Failed to copy file: " ++ pathStr src)

/-- The body of the `for entry in fs::read_dir(src)` loop of
`copy_dir_recursive`: each child is copied to `dest ++ [name]`, recursing
through `recurse` (the recursive call at one less gas) for directories. -/
def copyDirEntries (recurse : Fs → FsPath → FsPath → Except String Unit × Fs) :
    Fs → FsPath → FsPath → List (String × Entry) → Except String Unit × Fs
  | fs, _, _, [] => (Except.ok (), fs)
  | fs, src, dest, (n, _) :: rest =>
    let entry_path := src ++ [n]
    let dest_path := dest ++ [n]
    if isDir fs entry_path then
      match recurse fs entry_path dest_path with
      | (Except.error e, fs1) => (Except.error e, fs1)
      | (Except.ok _, fs1) => copyDirEntries recurse fs1 src dest rest
    else
      match fsCopy fs entry_path dest_path with
      | Except.error e => (Except.error e, fs)
      | Except.ok fs1 => copyDirEntries recurse fs1 src dest rest

/-- `copy_dir_recursive`: create the destination directory, then copy every
child, recursing into subdirectories.  The Rust recursion is over the
on-disk tree; `gas` is the embedded structural depth bound. -/
def copy_dir_recursive : Nat → Fs → FsPath → FsPath → Except String Unit × Fs
  | 0 => fun fs _ _ => (Except.error "Directory recursion limit exceeded", fs)
  | gas + 1 => fun fs src dest =>
    match createDirAll fs dest with
    | (Except.error e, fs1) =>
      (Except.error ("Failed to create directory: " ++ e), fs1)
    | (Except.ok _, fs1) =>
      copyDirEntries (copy_dir_recursive gas) fs1 src dest (childrenOf fs1 src)

/-- `copy_file` (lib.rs:599-709): checks the source, redirects a directory
destination to `destination/<source base name>`, resolves collisions, then
copies a directory subtree recursively or a single file after creating the
target's parents.  `gas` bounds the embedded directory recursion. -/
def copy_file (gas : Nat) (fs : Fs) (source destination : FsPath) :
    Except String Unit × Fs :=
  if pathExists fs source = false then
    (Except.error ("Source file does not exist: " ++ pathStr source), fs)
  else if isDir fs source then
    match (if isDir fs destination then
             match source.getLast? with
             | none => Except.error "Invalid source directory name"
             | some n => Except.ok (destination ++ [n])
           else Except.ok destination : Except String FsPath) with
    | Except.error e => (Except.error e, fs)
    | Except.ok final_dest =>
      match resolveCollision fs "Invalid directory name" final_dest with
      | Except.error e => (Except.error e, fs)
      | Except.ok target_path => copy_dir_recursive gas fs source target_path
  else if isFile fs source = false then
    (Except.error ("Source is not a file or directory: " ++ pathStr source), fs)
  else
    match (if isDir fs destination then
             match source.getLast? with
             | none => Except.error "Invalid source file name"
             | some n => Except.ok (destination ++ [n])
           else Except.ok destination : Except String FsPath) with
    | Except.error e => (Except.error e, fs)
    | Except.ok final_dest =>
      match resolveCollision fs "Invalid file name" final_dest with
      | Except.error e => (Except.error e, fs)
      | Except.ok target_path =>
        match parentOf target_path with
        | none =>
          match fsCopy fs source target_path with
          | Except.error e => (Except.error e, fs)
          | Except.ok fs1 => (Except.ok (), fs1)
        | some parent =>
          match createDirAll fs parent with
          | (Except.error e, fs1) =>
            (Except.error ("Failed to create parent directories: " ++ e), fs1)
          | (Except.ok _, fs1) =>
            match fsCopy fs1 source target_path with
            | Except.error e => (Except.error e, fs1)
            | Except.ok fs2 => (Except.ok (), fs2)

/-- `fs::rename`: rebind the source subtree under the destination path.  The
source's own binding and every binding below it move; everything else is
untouched. -/
def fsRename (fs : Fs) (src dst : FsPath) : Fs :=
  fs.map (fun pr =>
    if src.isPrefixOf pr.1 then (dst ++ pr.1.drop src.length, pr.2) else pr)

/-- `move_path` (lib.rs:566-595): a missing source fails; a directory
destination redirects to `destination/<source base name>`; an existing final
destination fails with "Destination already exists" before anything is
touched; otherwise parents are created and the OS rename is used. -/
def move_path (fs : Fs) (source destination : FsPath) :
    Except String Unit × Fs :=
  if pathExists fs source = false then
    (Except.error ("Source path does not exist: " ++ pathStr source), fs)
  else
    match (if isDir fs destination then
             match source.getLast? with
             | none => Except.error "Invalid source file name"
             | some n => Except.ok (destination ++ [n])
           else Except.ok destination : Except String FsPath) with
    | Except.error e => (Except.error e, fs)
    | Except.ok final_dest =>
      if pathExists fs final_dest then
        (Except.error ("Destination already exists: " ++ pathStr final_dest), fs)
      else
        match parentOf final_dest with
        | none => (Except.ok (), fsRename fs source final_dest)
        | some parent =>
          match createDirAll fs parent with
          | (Except.error e, fs1) =>
            (Except.error ("Failed to create parent directories: " ++ e), fs1)
          | (Except.ok _, fs1) => (Except.ok (), fsRename fs1 source final_dest)

/-- `create_file` (lib.rs:498-513): fails with "File already exists" on any
existing path, else creates parents and writes an empty file. -/
def create_file (fs : Fs) (path : FsPath) : Except String Unit × Fs :=
  if pathExists fs path then
    (Except.error ("File already exists: " ++ pathStr path), fs)
  else
    match parentOf path with
    | none => (Except.ok (), fsInsert fs path (fileE []))
    | some parent =>
      match createDirAll fs parent with
      | (Except.error e, fs1) =>
        (Except.error ("Failed to create parent directories: " ++ e), fs1)
      | (Except.ok _, fs1) => (Except.ok (), fsInsert fs1 path (fileE []))

/-- `create_directory` (lib.rs:517-526): fails with "Directory already
exists" on any existing path, else `create_dir_all`. -/
def create_directory (fs : Fs) (path : FsPath) : Except String Unit × Fs :=
  if pathExists fs path then
    (Except.error ("Directory already exists: " ++ pathStr path), fs)
  else
    match createDirAll fs path with
    | (Except.error e, fs1) =>
      (Except.error ("Failed to create directory: " ++ e), fs1)
    | (Except.ok _, fs1) => (Except.ok (), fs1)

/-- The standard base64 alphabet (RFC 4648), as used by the `base64` crate's
`general_purpose::STANDARD` engine. -/
def b64Alphabet : List Char :=
  "ABCDEFGHIJKLMNOPQRSTUVWXYZabcdefghijklmnopqrstuvwxyz0123456789+/".data

/-- The alphabet character for a sextet value. -/
def sextetChar (v : Nat) : Char :=
  b64Alphabet.getD v 'A'

/-- The sextet value of an alphabet character, `none` for a character outside
the alphabet (including `'='`). -/
def sextetVal (c : Char) : Option Nat :=
  b64Alphabet.findIdx? (fun d => d == c)

/-- Standard base64 encoding of a byte sequence, with `'='` padding: three
bytes become four sextet characters, a trailing group of one or two bytes is
zero-extended and padded. -/
def b64encodeBytes : List Nat → List Char
  | [] => []
  | [b1] => [sextetChar (b1 / 4), sextetChar (b1 % 4 * 16), '=', '=']
  | [b1, b2] =>
    [sextetChar (b1 / 4), sextetChar (b1 % 4 * 16 + b2 / 16),
     sextetChar (b2 % 16 * 4), '=']
  | b1 :: b2 :: b3 :: rest =>
    sextetChar (b1 / 4) :: sextetChar (b1 % 4 * 16 + b2 / 16) ::
    sextetChar (b2 % 16 * 4 + b3 / 64) :: sextetChar (b3 % 64) ::
    b64encodeBytes rest

/-- Standard base64 decoding with mandatory canonical padding, as the
`base64` crate's `STANDARD` engine: the input must be a sequence of
four-character groups, `'='` may appear only as final padding, and the unused
trailing bits of a padded group must be zero; anything else is rejected. -/
def b64decodeChars : List Char → Option (List Nat)
  | [] => some []
  | c1 :: c2 :: c3 :: c4 :: rest =>
    match sextetVal c1, sextetVal c2 with
    | some v1, some v2 =>
      if c3 = '=' then
        if c4 = '=' ∧ rest = [] ∧ v2 % 16 = 0 then some [v1 * 4 + v2 / 16]
        else none
      else
        match sextetVal c3 with
        | some v3 =>
          if c4 = '=' then
            if rest = [] ∧ v3 % 4 = 0 then
              some [v1 * 4 + v2 / 16, v2 % 16 * 16 + v3 / 4]
            else none
          else
            match sextetVal c4 with
            | some v4 =>
              match b64decodeChars rest with
              | some bs =>
                some ((v1 * 4 + v2 / 16) :: (v2 % 16 * 16 + v3 / 4) ::
                      (v3 % 4 * 64 + v4) :: bs)
              | none => none
            | none => none
        | none => none
    | _, _ => none
  | _ => none

/-- `general_purpose::STANDARD.encode`. -/
def b64encode (bs : List Nat) : String :=
  String.mk (b64encodeBytes bs)

/-- `general_purpose::STANDARD.decode`. -/
def b64decode (s : String) : Option (List Nat) :=
  b64decodeChars s.data

/-- `read_file_binary` (lib.rs:440-457): existence and file-kind checks, then
the file's bytes base64-encoded. -/
def read_file_binary (fs : Fs) (path : FsPath) : Except String String :=
  if pathExists fs path = false then
    Except.error ("File does not exist: " ++ pathStr path)
  else if isFile fs path = false then
    Except.error ("Path is not a file: " ++ pathStr path)
  else
    match fsLookup fs path with
    | some ⟨EntryKind.file c, _, _⟩ => Except.ok (b64encode c)
    | _ => Except.error ("Failed to read file: " ++ pathStr path)

/-- `write_file_binary` (lib.rs:476-494): parent directories are created
first, the base64 payload is decoded second, and only then is the file
written — so a decode failure happens after the parents exist. -/
def write_file_binary (fs : Fs) (path : FsPath) (data : String) :
    Except String Unit × Fs :=
  match parentOf path with
  | some parent =>
    match createDirAll fs parent with
    | (Except.error e, fs1) =>
      (Except.error ("Failed to create parent directories: " ++ e), fs1)
    | (Except.ok _, fs1) =>
      match b64decode data with
      | none => (Except.error "Failed to decode base64 data", fs1)
      | some bytes =>
        (Except.ok (), fsInsert fs1 path ⟨EntryKind.file bytes, true, none⟩)
  | none =>
    match b64decode data with
    | none => (Except.error "Failed to decode base64 data", fs)
    | some bytes =>
      (Except.ok (), fsInsert fs path ⟨EntryKind.file bytes, true, none⟩)

/-- One node of the tree returned by `read_directory` (lib.rs:332-341). -/
inductive FileNode where
  | mk (name : String) (path : FsPath) (is_directory : Bool)
      (children : Option (List FileNode)) (size : Option Nat)
      (modified : Option Nat)

/-- The `name` field of a node. -/
def FileNode.name : FileNode → String
  | .mk n _ _ _ _ _ => n

/-- The `path` field of a node. -/
def FileNode.path : FileNode → FsPath
  | .mk _ p _ _ _ _ => p

/-- The `is_directory` field of a node. -/
def FileNode.is_directory : FileNode → Bool
  | .mk _ _ d _ _ _ => d

/-- The `children` field of a node. -/
def FileNode.children : FileNode → Option (List FileNode)
  | .mk _ _ _ c _ _ => c

/-- The `size` field of a node. -/
def FileNode.size : FileNode → Option Nat
  | .mk _ _ _ _ s _ => s

/-- The `modified` field of a node. -/
def FileNode.modified : FileNode → Option Nat
  | .mk _ _ _ _ _ m => m

/-- The boolean "not after" relation of the sort comparator at
lib.rs:410-416: directories strictly precede files, and nodes of the same
kind are compared by their lowercased name (Rust's `to_lowercase` byte-wise
comparison is modelled by `String.toLower` and the lexicographic String
order). -/
def nodeLE (a b : FileNode) : Bool :=
  match a.is_directory, b.is_directory with
  | true, false => true
  | false, true => false
  | _, _ => decide (a.name.toLower ≤ b.name.toLower)

/-- `nodeLE` as a relation, for the sort. -/
def nodeR (a b : FileNode) : Prop := nodeLE a b = true

instance : DecidableRel nodeR := fun a b => by
  unfold nodeR; infer_instance

/-- `nodes.sort_by(...)`: Rust's stable sort under the comparator; embedded
as a stable insertion sort under the comparator's "not after" relation. -/
def sortNodes (l : List FileNode) : List FileNode :=
  List.insertionSort nodeR l

/-- The body of the `for entry in entries` loop of
`read_directory_recursive` (lib.rs:365-407): an unreadable entry aborts with
an error, a directory child is expanded through `recurse` (the recursive
call at one less gas) exactly when `recursive` is set, and `size` is present
exactly for files. -/
def buildNodes (recursive : Bool)
    (recurse : FsPath → Except String (List FileNode)) (p : FsPath) :
    List (String × Entry) → Except String (List FileNode)
  | [] => Except.ok []
  | (n, e) :: rest =>
    if e.metaOk then
      let q := p ++ [n]
      let is_directory := entryIsDir e
      match (if is_directory && recursive then
               match recurse q with
               | Except.error m => Except.error m
               | Except.ok cs => Except.ok (some cs)
             else Except.ok none : Except String (Option (List FileNode))) with
      | Except.error m => Except.error m
      | Except.ok children =>
        match buildNodes recursive recurse p rest with
        | Except.error m => Except.error m
        | Except.ok nodes =>
          Except.ok (FileNode.mk n q is_directory children
            (if !is_directory then some (entrySize e) else none)
            e.modified :: nodes)
    else Except.error "Failed to read metadata"

/-- `read_directory_recursive` (lib.rs:359-419): enumerate one level, build
the nodes (recursing into subdirectories when `recursive`), then sort
directories-first / case-insensitively.  The Rust recursion is over the
on-disk tree; `gas` is the embedded structural depth bound. -/
def read_directory_recursive (fs : Fs) (recursive : Bool) :
    Nat → FsPath → Except String (List FileNode)
  | 0 => fun _ => Except.error "Directory recursion limit exceeded"
  | gas + 1 => fun p =>
    match buildNodes recursive (read_directory_recursive fs recursive gas) p
        (childrenOf fs p) with
    | Except.error e => Except.error e
    | Except.ok nodes => Except.ok (sortNodes nodes)

/-- `read_directory` (lib.rs:345-357): existence and directory checks, then
the recursive enumeration. -/
def read_directory (fs : Fs) (gas : Nat) (path : FsPath) (recursive : Bool) :
    Except String (List FileNode) :=
  if pathExists fs path = false then
    Except.error ("Path does not exist: " ++ pathStr path)
  else if isDir fs path = false then
    Except.error ("Path is not a directory: " ++ pathStr path)
  else read_directory_recursive fs recursive gas path

/-- Whether the traversal of `read_directory_recursive` from `p` (to the
same depth bound, into subdirectories only when `recursive`) meets an entry
whose metadata cannot be read. -/
def badInEntries (recurse : FsPath → Bool) (recursive : Bool) (p : FsPath) :
    List (String × Entry) → Bool
  | [] => false
  | (n, e) :: rest =>
    !e.metaOk || (entryIsDir e && recursive && recurse (p ++ [n])) ||
    badInEntries recurse recursive p rest

/-- Whether the region traversed by `read_directory_recursive fs recursive
gas p` contains an unreadable entry. -/
def badIn (fs : Fs) (recursive : Bool) : Nat → FsPath → Bool
  | 0 => fun _ => false
  | gas + 1 => fun p =>
    badInEntries (badIn fs recursive gas) recursive p (childrenOf fs p)

/-- Specification-side statement of the sort contract for one enumerated
level: directories come before files, and within the same kind names ascend
case-insensitively. -/
def levelOrdered (l : List FileNode) : Prop :=
  l.Pairwise (fun a b =>
    (b.is_directory = true → a.is_directory = true) ∧
    (a.is_directory = b.is_directory → a.name.toLower ≤ b.name.toLower))

/-- Specification-side statement that a node and, recursively, every
children list below it satisfy the sort contract. -/
inductive NodeSorted : FileNode → Prop where
  | leaf : ∀ n p d s m, NodeSorted (FileNode.mk n p d none s m)
  | node : ∀ n p d cs s m, levelOrdered cs → (∀ c ∈ cs, NodeSorted c) →
      NodeSorted (FileNode.mk n p d (some cs) s m)

/-- Specification-side statement of the field-presence contract of a node
produced with the given `recursive` flag: `children` is present exactly for
directory nodes of a recursive call, `size` exactly for file nodes; the same
holds recursively below. -/
inductive ShapeOk (recursive : Bool) : FileNode → Prop where
  | mk : ∀ n p d cs s m, cs.isSome = (d && recursive) → s.isSome = !d →
      (∀ l, cs = some l → ∀ c ∈ l, ShapeOk recursive c) →
      ShapeOk recursive (FileNode.mk n p d cs s m)

theorem fsLookup_fsRemove_ne (fs : Fs) {p q : FsPath} (h : q ≠ p) :
    fsLookup (fsRemove fs p) q = fsLookup fs q := by
  induction fs with
  | nil => rfl
  | cons pr rest ih =>
    obtain ⟨r, e⟩ := pr
    by_cases hrp : r = p
    · subst hrp
      have hrq : ¬(r = q) := fun h1 => h h1.symm
      simp [fsRemove, fsLookup, hrq, ih]
    · by_cases hrq : r = q
      · subst hrq
        simp [fsRemove, fsLookup, hrp]
      · simp [fsRemove, fsLookup, hrp, hrq, ih]

theorem fsLookup_fsInsert_self (fs : Fs) (p : FsPath) (e : Entry) :
    fsLookup (fsInsert fs p e) p = some e := by
  simp [fsInsert, fsLookup]

theorem fsLookup_fsInsert_ne (fs : Fs) {p q : FsPath} (e : Entry)
    (h : q ≠ p) : fsLookup (fsInsert fs p e) q = fsLookup fs q := by
  have hpq : ¬(p = q) := fun h1 => h h1.symm
  simp [fsInsert, fsLookup, hpq, fsLookup_fsRemove_ne fs h]

theorem pathExists_fsInsert_self (fs : Fs) (p : FsPath) (e : Entry) :
    pathExists (fsInsert fs p e) p = true := by
  simp [pathExists, fsLookup_fsInsert_self]

theorem createDirAllGo_lookup (rest : List String) :
    ∀ (fs : Fs) (pre q : FsPath), pre.length + rest.length < q.length →
      fsLookup (createDirAllGo fs pre rest).2 q = fsLookup fs q := by
  induction rest with
  | nil => intro fs pre q _; rfl
  | cons c rest ih =>
    intro fs pre q h
    have hne : q ≠ pre ++ [c] := by
      intro heq
      rw [heq] at h
      simp at h
    have hlen : (pre ++ [c]).length + rest.length < q.length := by
      simp only [List.length_append, List.length_cons, List.length_nil] at h ⊢
      omega
    cases hlk : fsLookup fs (pre ++ [c]) with
    | some e =>
      cases hd : entryIsDir e with
      | true =>
        simp only [createDirAllGo, hlk, hd, if_true]
        exact ih fs (pre ++ [c]) q hlen
      | false =>
        simp only [createDirAllGo, hlk, hd, Bool.false_eq_true, if_false]
    | none =>
      simp only [createDirAllGo, hlk]
      rw [ih _ (pre ++ [c]) q hlen]
      exact fsLookup_fsInsert_ne fs dirE hne

theorem createDirAll_lookup (fs : Fs) (p q : FsPath)
    (h : p.length < q.length) :
    fsLookup (createDirAll fs p).2 q = fsLookup fs q :=
  createDirAllGo_lookup p fs [] q (by simpa using h)

/-- The stem under which collision candidates for a desired destination are
built (the `file_stem` of its last component). -/
def destStem (fd : FsPath) : String :=
  (fileStemExt (fd.getLast?.getD "")).1

/-- The extension suffix appended to collision candidates for a desired
destination (`"." ++ extension` when the extension is nonempty). -/
def destSuffix (fd : FsPath) : String :=
  let extension := (fileStemExt (fd.getLast?.getD "")).2.getD ""
  if extension = "" then "" else "." ++ extension

theorem candName_one (s x : String) : candName s x 1 = s ++ " (copy)" ++ x :=
  rfl

theorem candName_of_two_le (s x : String) {k : Nat} (h : 2 ≤ k) :
    candName s x k = s ++ " (copy " ++ toString k ++ ")" ++ x := by
  unfold candName
  rw [if_neg (by omega)]

theorem parentOf_ne_nil (p : FsPath) (h : p ≠ []) :
    parentOf p = some p.dropLast := by
  cases p with
  | nil => exact absurd rfl h
  | cons a l => rfl

theorem copyCandidate_eq (fd : FsPath) (h : fd ≠ []) (k : Nat) :
    copyCandidate fd k =
      fd.dropLast ++ [candName (destStem fd) (destSuffix fd) k] := by
  cases hg : fd.getLast? with
  | none => exact absurd (List.getLast?_eq_none_iff.mp hg) h
  | some fname =>
    rcases hfe : fileStemExt fname with ⟨st, eo⟩
    simp [copyCandidate, hg, hfe, destStem, destSuffix]

theorem probeLoop_ok_first (fs : Fs) (parent : FsPath) (st sx : String) :
    ∀ (gas counter k : Nat), counter + gas = 1000 → 2 ≤ counter →
      counter - 1 ≤ k → k ≤ 999 →
      pathExists fs (parent ++ [candName st sx k]) = false →
      (∀ j, counter - 1 ≤ j → j < k →
        pathExists fs (parent ++ [candName st sx j]) = true) →
      probeLoop fs parent st sx counter gas
        (parent ++ [candName st sx (counter - 1)]) =
        Except.ok (parent ++ [candName st sx k]) := by
  intro gas
  induction gas with
  | zero =>
    intro counter k hcg hc2 hk1 hk2 hfree hall
    have hcounter : counter = 1000 := by omega
    subst hcounter
    have hk : k = 999 := by omega
    subst hk
    have h99 : (1000 : Nat) - 1 = 999 := by norm_num
    rw [h99]
    simp only [probeLoop]
    simp [hfree]
  | succ gas ih =>
    intro counter k hcg hc2 hk1 hk2 hfree hall
    by_cases hk : k = counter - 1
    · subst hk
      simp only [probeLoop]
      simp [hfree]
    · have hklt : counter - 1 < k := by omega
      have hex : pathExists fs (parent ++ [candName st sx (counter - 1)]) =
          true := hall _ (le_refl _) hklt
      simp only [probeLoop]
      rw [if_pos (by rw [hex])]
      have happ := ih (counter + 1) k (by omega) (by omega) (by omega) hk2
        hfree (fun j hj1 hj2 => hall j (by omega) hj2)
      simpa [Nat.add_sub_cancel, candName_of_two_le st sx hc2] using happ

theorem probeLoop_error_of_all (fs : Fs) (parent : FsPath) (st sx : String) :
    ∀ (gas counter : Nat), counter + gas = 1000 → 2 ≤ counter →
      (∀ j, counter - 1 ≤ j → j ≤ 999 →
        pathExists fs (parent ++ [candName st sx j]) = true) →
      probeLoop fs parent st sx counter gas
        (parent ++ [candName st sx (counter - 1)]) =
        Except.error "Too many copies already exist" := by
  intro gas
  induction gas with
  | zero =>
    intro counter hcg hc2 hall
    have hcounter : counter = 1000 := by omega
    subst hcounter
    have h99 : (1000 : Nat) - 1 = 999 := by norm_num
    rw [h99]
    simp only [probeLoop]
    simp [hall 999 (by omega) (le_refl _)]
  | succ gas ih =>
    intro counter hcg hc2 hall
    have hex := hall (counter - 1) (le_refl _) (by omega)
    simp only [probeLoop]
    rw [if_pos (by rw [hex])]
    have happ := ih (counter + 1) (by omega) (by omega)
      (fun j hj1 hj2 => hall j (by omega) hj2)
    simpa [Nat.add_sub_cancel, candName_of_two_le st sx hc2] using happ

theorem probeLoop_error_elim (fs : Fs) (parent : FsPath) (st sx : String) :
    ∀ (gas counter : Nat) (m : String), counter + gas = 1000 → 2 ≤ counter →
      probeLoop fs parent st sx counter gas
        (parent ++ [candName st sx (counter - 1)]) = Except.error m →
      (∀ j, counter - 1 ≤ j → j ≤ 999 →
        pathExists fs (parent ++ [candName st sx j]) = true) ∧
      m = "Too many copies already exist" := by
  intro gas
  induction gas with
  | zero =>
    intro counter m hcg hc2 hrun
    have hcounter : counter = 1000 := by omega
    subst hcounter
    have h99 : (1000 : Nat) - 1 = 999 := by norm_num
    rw [h99] at hrun
    simp only [probeLoop] at hrun
    by_cases hex : pathExists fs (parent ++ [candName st sx 999]) = true
    · rw [if_pos (by rw [hex])] at hrun
      refine ⟨?_, ?_⟩
      · intro j hj1 hj2
        have hj : j = 999 := by omega
        subst hj
        exact hex
      · exact (Except.error.inj hrun).symm
    · rw [if_neg (by simp [Bool.not_eq_true] at hex; simp [hex])] at hrun
      cases hrun
  | succ gas ih =>
    intro counter m hcg hc2 hrun
    simp only [probeLoop] at hrun
    by_cases hex :
        pathExists fs (parent ++ [candName st sx (counter - 1)]) = true
    · rw [if_pos (by rw [hex])] at hrun
      rw [show parent ++
            [st ++ " (copy " ++ toString counter ++ ")" ++ sx] =
            parent ++ [candName st sx ((counter + 1) - 1)] by
          simp [Nat.add_sub_cancel, candName_of_two_le st sx hc2]] at hrun
      obtain ⟨hall, hm⟩ := ih (counter + 1) m (by omega) (by omega) hrun
      refine ⟨?_, hm⟩
      intro j hj1 hj2
      by_cases hj : j = counter - 1
      · subst hj
        exact hex
      · exact hall j (by omega) hj2
    · rw [if_neg (by simp [Bool.not_eq_true] at hex; simp [hex])] at hrun
      cases hrun

theorem resolveCollision_not_exists (fs : Fs) (err : String) (fd : FsPath)
    (h : pathExists fs fd = false) :
    resolveCollision fs err fd = Except.ok fd := by
  simp [resolveCollision, h]

theorem resolveCollision_eq_probeLoop (fs : Fs) (err : String) (fd : FsPath)
    (h : fd ≠ []) (hex : pathExists fs fd = true) :
    resolveCollision fs err fd =
      probeLoop fs fd.dropLast (destStem fd) (destSuffix fd) 2 998
        (fd.dropLast ++ [candName (destStem fd) (destSuffix fd) 1]) := by
  cases hg : fd.getLast? with
  | none => exact absurd (List.getLast?_eq_none_iff.mp hg) h
  | some fname =>
    rcases hfe : fileStemExt fname with ⟨st, eo⟩
    simp [resolveCollision, hex, hg, hfe, parentOf_ne_nil fd h,
      destStem, destSuffix, candName_one]

theorem resolveCollision_first_free (fs : Fs) (err : String) (fd : FsPath)
    (k : Nat) (h : fd ≠ []) (hex : pathExists fs fd = true) (hk1 : 1 ≤ k)
    (hk2 : k ≤ 999) (hfree : pathExists fs (copyCandidate fd k) = false)
    (hall : ∀ j, 1 ≤ j → j < k → pathExists fs (copyCandidate fd j) = true) :
    resolveCollision fs err fd = Except.ok (copyCandidate fd k) := by
  rw [resolveCollision_eq_probeLoop fs err fd h hex, copyCandidate_eq fd h k]
  have h21 : (2 : Nat) - 1 = 1 := by norm_num
  have happ := probeLoop_ok_first fs fd.dropLast (destStem fd) (destSuffix fd)
    998 2 k (by omega) (by omega) (by omega) hk2
    (by rw [← copyCandidate_eq fd h k]; exact hfree)
    (fun j hj1 hj2 => by
      rw [← copyCandidate_eq fd h j]
      exact hall j (by omega) hj2)
  rw [h21] at happ
  exact happ

theorem resolveCollision_error_iff (fs : Fs) (err : String) (fd : FsPath)
    (h : fd ≠ []) :
    resolveCollision fs err fd =
        Except.error "Too many copies already exist" ↔
      (pathExists fs fd = true ∧
        ∀ j, 1 ≤ j → j ≤ 999 →
          pathExists fs (copyCandidate fd j) = true) := by
  have h21 : (2 : Nat) - 1 = 1 := by norm_num
  constructor
  · intro hrun
    cases hex : pathExists fs fd with
    | false =>
      rw [resolveCollision_not_exists fs err fd hex] at hrun
      cases hrun
    | true =>
      rw [resolveCollision_eq_probeLoop fs err fd h hex] at hrun
      have helim := probeLoop_error_elim fs fd.dropLast (destStem fd)
        (destSuffix fd) 998 2 "Too many copies already exist" (by omega)
        (by omega) (by rw [h21]; exact hrun)
      refine ⟨rfl, ?_⟩
      intro j hj1 hj2
      rw [copyCandidate_eq fd h j]
      exact helim.1 j (by omega) hj2
  · rintro ⟨hex, hall⟩
    rw [resolveCollision_eq_probeLoop fs err fd h hex]
    have happ := probeLoop_error_of_all fs fd.dropLast (destStem fd)
      (destSuffix fd) 998 2 (by omega) (by omega)
      (fun j hj1 hj2 => by
        rw [← copyCandidate_eq fd h j]
        exact hall j (by omega) hj2)
    rw [h21] at happ
    exact happ

/-- Directories exist (`is_dir` implies `exists`). -/
theorem pathExists_of_isDir (fs : Fs) (p : FsPath) (h : isDir fs p = true) :
    pathExists fs p = true := by
  unfold isDir at h
  unfold pathExists
  cases hl : fsLookup fs p with
  | none => rw [hl] at h; cases h
  | some e => simp

/-- Demonstration filesystem for the file-copy scenario: a directory `d`
containing `A.txt`. -/
def demoFsA : Fs := [(["d"], dirE), (["d", "A.txt"], fileE [7])]

/-- The state after copying `d/A.txt` into `d` once. -/
def demoFsA1 : Fs := (copy_file 1 demoFsA ["d", "A.txt"] ["d"]).2

/-- The state after copying `d/A.txt` into `d` twice. -/
def demoFsA2 : Fs := (copy_file 1 demoFsA1 ["d", "A.txt"] ["d"]).2

/-- The state after copying `d/A.txt` into `d` three times. -/
def demoFsA3 : Fs := (copy_file 1 demoFsA2 ["d", "A.txt"] ["d"]).2

/-- C1: when the effective destination of `copy_file` already exists, the
final target is the first path of the probe sequence `"{stem} (copy){ext}"`,
`"{stem} (copy 2){ext}"`, ... (counter starting at 2) that does not exist
(within the capped range settled by the probe bound, see C3); if the desired
destination does not exist it is used unchanged; copying `d/A.txt` into `d`
three times produces `A (copy).txt`, `A (copy 2).txt`, `A (copy 3).txt`. -/
theorem copy_first_free_probe :
    (∀ (fs : Fs) (err : String) (fd : FsPath),
      pathExists fs fd = false → resolveCollision fs err fd = Except.ok fd) ∧
    (∀ (fs : Fs) (err : String) (fd : FsPath) (k : Nat), fd ≠ [] →
      pathExists fs fd = true → 1 ≤ k → k ≤ 999 →
      pathExists fs (copyCandidate fd k) = false →
      (∀ j, 1 ≤ j → j < k → pathExists fs (copyCandidate fd j) = true) →
      resolveCollision fs err fd = Except.ok (copyCandidate fd k)) ∧
    ((copy_file 1 demoFsA ["d", "A.txt"] ["d"]).1 = Except.ok () ∧
     pathExists demoFsA1 ["d", "A (copy).txt"] = true ∧
     pathExists demoFsA1 ["d", "A (copy 2).txt"] = false ∧
     (copy_file 1 demoFsA1 ["d", "A.txt"] ["d"]).1 = Except.ok () ∧
     pathExists demoFsA2 ["d", "A (copy 2).txt"] = true ∧
     pathExists demoFsA2 ["d", "A (copy 3).txt"] = false ∧
     (copy_file 1 demoFsA2 ["d", "A.txt"] ["d"]).1 = Except.ok () ∧
     pathExists demoFsA3 ["d", "A (copy 3).txt"] = true) :=
  ⟨resolveCollision_not_exists,
   fun fs err fd k h hex hk1 hk2 hfree hall =>
     resolveCollision_first_free fs err fd k h hex hk1 hk2 hfree hall,
   rfl, rfl, rfl, rfl, rfl, rfl, rfl, rfl⟩

theorem copy_first_free_probe_witness :
    resolveCollision [] "Invalid file name" ["A.txt"] =
        Except.ok ["A.txt"] ∧
    resolveCollision demoFsA "Invalid file name" ["d", "A.txt"] =
        Except.ok (copyCandidate ["d", "A.txt"] 1) :=
  ⟨copy_first_free_probe.1 [] "Invalid file name" ["A.txt"] rfl,
   copy_first_free_probe.2.1 demoFsA "Invalid file name" ["d", "A.txt"] 1
     (by decide) rfl (by decide) (by decide) rfl
     (by intro j hj1 hj2; omega)⟩

/-- Demonstration filesystem for the directory-collision scenario: `a`
contains the directory `my.notes` (with one file), and the destination `b`
already contains a directory `my.notes`. -/
def demoFsNotes : Fs :=
  [(["a"], dirE), (["a", "my.notes"], dirE),
   (["a", "my.notes", "f.txt"], fileE [1]),
   (["b"], dirE), (["b", "my.notes"], dirE)]

/-- C2 counterexample: copying the directory `a/my.notes` into `b` (which
already contains `my.notes`) succeeds and creates `b/my (copy).notes` — the
name is split at the dot exactly as for a file — and does not create the
`b/my.notes (copy)` the claim predicts. -/
theorem copy_dir_dot_name_counterexample :
    (copy_file 3 demoFsNotes ["a", "my.notes"] ["b"]).1 = Except.ok () ∧
    pathExists (copy_file 3 demoFsNotes ["a", "my.notes"] ["b"]).2
      ["b", "my (copy).notes"] = true ∧
    pathExists (copy_file 3 demoFsNotes ["a", "my.notes"] ["b"]).2
      ["b", "my.notes (copy)"] = false :=
  ⟨rfl, rfl, rfl⟩

/-- C2 amended: when the colliding copy target is a directory, the collision
resolver applies the same stem/extension split as for files (the extension is
not forced empty), so a directory named `my.notes` resolves to
`my (copy).notes`; apart from that, the same `(copy)` / `(copy N)` probe
sequence is used: the directory branch of `copy_file` copies the subtree to
exactly the probe-resolved candidate. -/
theorem copy_dir_dot_name_amended :
    (∀ (gas : Nat) (fs : Fs) (source destination : FsPath) (n : String)
      (t : FsPath),
      isDir fs source = true → isDir fs destination = true →
      source.getLast? = some n →
      resolveCollision fs "Invalid directory name" (destination ++ [n]) =
        Except.ok t →
      copy_file gas fs source destination = copy_dir_recursive gas fs source t) ∧
    (copyCandidate ["b", "my.notes"] 1 = ["b", "my (copy).notes"] ∧
     pathExists (copy_file 3 demoFsNotes ["a", "my.notes"] ["b"]).2
       ["b", "my (copy).notes", "f.txt"] = true) := by
  refine ⟨?_, rfl, rfl⟩
  intro gas fs source destination n t hsrc hdst hlast hres
  have hex : pathExists fs source = true := pathExists_of_isDir fs source hsrc
  simp [copy_file, hex, hsrc, hdst, hlast, hres]

theorem copy_dir_dot_name_amended_witness :
    copy_file 3 demoFsNotes ["a", "my.notes"] ["b"] =
      copy_dir_recursive 3 demoFsNotes ["a", "my.notes"]
        ["b", "my (copy).notes"] :=
  copy_dir_dot_name_amended.1 3 demoFsNotes ["a", "my.notes"] ["b"]
    "my.notes" ["b", "my (copy).notes"] rfl rfl rfl rfl

/-- C3: the collision probe sequence of `copy_file` is capped: the
`TooManyCollisions` error ("Too many copies already exist") is raised exactly
when the desired destination and the whole permitted probe sequence
`(copy)`, `(copy 2)`, ..., `(copy 999)` — one thousand existence probes in
all — are exhausted by existing entries. -/
theorem copy_collision_cap (fs : Fs) (err : String) (fd : FsPath)
    (h : fd ≠ []) :
    resolveCollision fs err fd =
        Except.error "Too many copies already exist" ↔
      (pathExists fs fd = true ∧
        ∀ j, 1 ≤ j → j ≤ 999 →
          pathExists fs (copyCandidate fd j) = true) :=
  resolveCollision_error_iff fs err fd h

theorem copy_collision_cap_witness :
    ¬(resolveCollision [] "Invalid file name" ["A.txt"] =
        Except.error "Too many copies already exist") :=
  fun hrun =>
    absurd ((copy_collision_cap [] "Invalid file name" ["A.txt"]
      (by decide)).mp hrun).1 (by decide)

/-- C4: for an existing source and a destination that is an existing
directory, `move_path` targets `destination ++ [source base name]`, and if
that target already exists the call fails with "Destination already exists"
and returns the filesystem untouched — no collision resolution, no rename,
no overwrite. -/
theorem move_path_strict (fs : Fs) (source destination : FsPath) (n : String)
    (hs : pathExists fs source = true) (hd : isDir fs destination = true)
    (hn : source.getLast? = some n)
    (hex : pathExists fs (destination ++ [n]) = true) :
    move_path fs source destination =
      (Except.error ("Destination already exists: " ++
        pathStr (destination ++ [n])), fs) := by
  simp [move_path, hs, hd, hn, hex]

/-- Demonstration filesystem for the strict-move scenario: a file `s` and a
directory `t` that already contains an entry named `s`. -/
def demoFsMove : Fs :=
  [(["s"], fileE [9]), (["t"], dirE), (["t", "s"], fileE [])]

theorem move_path_strict_witness :
    move_path demoFsMove ["s"] ["t"] =
      (Except.error ("Destination already exists: " ++ pathStr ["t", "s"]),
        demoFsMove) :=
  move_path_strict demoFsMove ["s"] ["t"] "s" rfl rfl rfl rfl

/-- C7: `create_file` and `create_directory` both fail on any existing path
— whatever its kind — with their "already exists" errors and leave the
filesystem untouched; and a successful `create_file` makes an immediate
second `create_file` of the same path fail. -/
theorem create_not_idempotent :
    (∀ (fs : Fs) (P : FsPath), pathExists fs P = true →
      create_file fs P =
        (Except.error ("File already exists: " ++ pathStr P), fs) ∧
      create_directory fs P =
        (Except.error ("Directory already exists: " ++ pathStr P), fs)) ∧
    (∀ (fs : Fs) (P : FsPath) (fs1 : Fs),
      create_file fs P = (Except.ok (), fs1) →
      create_file fs1 P =
        (Except.error ("File already exists: " ++ pathStr P), fs1)) := by
  constructor
  · intro fs P h
    constructor
    · simp [create_file, h]
    · simp [create_directory, h]
  · intro fs P fs1 h
    have hP : pathExists fs1 P = true := by
      cases hex : pathExists fs P with
      | true => simp [create_file, hex] at h
      | false =>
        cases hpar : parentOf P with
        | none =>
          simp only [create_file, hex, Bool.false_eq_true, hpar] at h
          simp at h
          rw [← h]
          exact pathExists_fsInsert_self fs P (fileE [])
        | some parent =>
          rcases hcd : createDirAll fs parent with ⟨r, fs2⟩
          cases r with
          | error e =>
            simp [create_file, hex, hpar, hcd] at h
          | ok u =>
            simp only [create_file, hex, Bool.false_eq_true, hpar, hcd] at h
            simp at h
            rw [← h]
            exact pathExists_fsInsert_self fs2 P (fileE [])
    simp [create_file, hP]

theorem create_not_idempotent_witness :
    create_file [(["x"], fileE [])] ["x"] =
        (Except.error ("File already exists: " ++ pathStr ["x"]),
          [(["x"], fileE [])]) ∧
    create_directory [(["x"], fileE [])] ["x"] =
        (Except.error ("Directory already exists: " ++ pathStr ["x"]),
          [(["x"], fileE [])]) ∧
    create_file (create_file [] ["y"]).2 ["y"] =
        (Except.error ("File already exists: " ++ pathStr ["y"]),
          (create_file [] ["y"]).2) :=
  ⟨(create_not_idempotent.1 [(["x"], fileE [])] ["x"] rfl).1,
   (create_not_idempotent.1 [(["x"], fileE [])] ["x"] rfl).2,
   create_not_idempotent.2 [] ["y"] (create_file [] ["y"]).2 rfl⟩

theorem sextetVal_sextetChar : ∀ v, v < 64 → sextetVal (sextetChar v) = some v := by
  decide

theorem sextetChar_ne_pad : ∀ v, v < 64 → ¬(sextetChar v = '=') := by
  decide

theorem b64_roundtrip : ∀ bs : List Nat, (∀ b ∈ bs, b < 256) →
    b64decodeChars (b64encodeBytes bs) = some bs
  | [], _ => rfl
  | [b1], h => by
    have hb1 : b1 < 256 := h b1 (by simp)
    simp only [b64encodeBytes, b64decodeChars]
    rw [sextetVal_sextetChar (b1 / 4) (by omega),
      sextetVal_sextetChar (b1 % 4 * 16) (by omega)]
    have hm : b1 % 4 * 16 % 16 = 0 := by omega
    simp [hm]
    omega
  | [b1, b2], h => by
    have hb1 : b1 < 256 := h b1 (by simp)
    have hb2 : b2 < 256 := h b2 (by simp)
    simp only [b64encodeBytes, b64decodeChars]
    rw [sextetVal_sextetChar (b1 / 4) (by omega),
      sextetVal_sextetChar (b1 % 4 * 16 + b2 / 16) (by omega)]
    have hc3 : ¬(sextetChar (b2 % 16 * 4) = '=') :=
      sextetChar_ne_pad (b2 % 16 * 4) (by omega)
    rw [sextetVal_sextetChar (b2 % 16 * 4) (by omega)]
    have hm : b2 % 16 * 4 % 4 = 0 := by omega
    simp [hc3, hm]
    omega
  | b1 :: b2 :: b3 :: rest, h => by
    have hb1 : b1 < 256 := h b1 (by simp)
    have hb2 : b2 < 256 := h b2 (by simp)
    have hb3 : b3 < 256 := h b3 (by simp)
    have ih := b64_roundtrip rest (fun b hb => h b (by simp [hb]))
    simp only [b64encodeBytes, b64decodeChars]
    rw [sextetVal_sextetChar (b1 / 4) (by omega),
      sextetVal_sextetChar (b1 % 4 * 16 + b2 / 16) (by omega)]
    have hc3 : ¬(sextetChar (b2 % 16 * 4 + b3 / 64) = '=') :=
      sextetChar_ne_pad (b2 % 16 * 4 + b3 / 64) (by omega)
    rw [sextetVal_sextetChar (b2 % 16 * 4 + b3 / 64) (by omega)]
    have hc4 : ¬(sextetChar (b3 % 64) = '=') :=
      sextetChar_ne_pad (b3 % 64) (by omega)
    rw [sextetVal_sextetChar (b3 % 64) (by omega)]
    simp [hc3, hc4, ih]
    omega

theorem read_file_binary_insert (fs : Fs) (P : FsPath) (bytes : List Nat) :
    read_file_binary (fsInsert fs P ⟨EntryKind.file bytes, true, none⟩) P =
      Except.ok (b64encode bytes) := by
  have hl := fsLookup_fsInsert_self fs P ⟨EntryKind.file bytes, true, none⟩
  simp [read_file_binary, pathExists, isFile, hl, entryIsDir]

/-- C9: writing the base64 encoding of any byte sequence with
`write_file_binary` and reading it back with `read_file_binary` succeeds and
returns a base64 string that decodes to exactly those bytes. -/
theorem write_read_binary_roundtrip (fs : Fs) (P : FsPath)
    (bytes : List Nat) (fs1 : Fs) (hb : ∀ b ∈ bytes, b < 256)
    (hw : write_file_binary fs P (b64encode bytes) = (Except.ok (), fs1)) :
    read_file_binary fs1 P = Except.ok (b64encode bytes) ∧
    b64decode (b64encode bytes) = some bytes := by
  have hdec : b64decode (b64encode bytes) = some bytes := b64_roundtrip bytes hb
  refine ⟨?_, hdec⟩
  cases hpar : parentOf P with
  | none =>
    simp only [write_file_binary, hpar, hdec] at hw
    simp at hw
    rw [← hw]
    exact read_file_binary_insert fs P bytes
  | some parent =>
    rcases hcd : createDirAll fs parent with ⟨r, fs2⟩
    cases r with
    | error e => simp [write_file_binary, hpar, hcd, hdec] at hw
    | ok u =>
      simp only [write_file_binary, hpar, hcd, hdec] at hw
      simp at hw
      rw [← hw]
      exact read_file_binary_insert fs2 P bytes

theorem write_read_binary_roundtrip_witness :
    read_file_binary
        (write_file_binary [] ["f.bin"] (b64encode [0, 255, 10])).2
        ["f.bin"] = Except.ok (b64encode [0, 255, 10]) ∧
    b64decode (b64encode [0, 255, 10]) = some [0, 255, 10] :=
  write_read_binary_roundtrip [] ["f.bin"] [0, 255, 10]
    (write_file_binary [] ["f.bin"] (b64encode [0, 255, 10])).2
    (by decide) rfl

theorem parentOf_some (P parent : FsPath) (h : parentOf P = some parent) :
    P ≠ [] ∧ parent = P.dropLast := by
  cases P with
  | nil => cases h
  | cons a l =>
    refine ⟨by simp, ?_⟩
    simp only [parentOf] at h
    exact (Option.some.inj h).symm

/-- Demonstration filesystem for the invalid-base64 scenario: just a root
directory `r`. -/
def demoFsRoot : Fs := [(["r"], dirE)]

/-- C10: `write_file_binary` creates the missing parent directories before
validating the payload, so an invalid base64 payload fails with the decode
error and the target file is never written, but the freshly created parent
directories remain — the failure is not a filesystem no-op. -/
theorem write_binary_invalid_base64 :
    (∀ (fs : Fs) (P : FsPath) (data : String) (parent : FsPath),
      parentOf P = some parent → b64decode data = none →
      (createDirAll fs parent).1 = Except.ok () →
      write_file_binary fs P data =
        (Except.error "Failed to decode base64 data",
          (createDirAll fs parent).2) ∧
      fsLookup (createDirAll fs parent).2 P = fsLookup fs P) ∧
    ((write_file_binary demoFsRoot ["r", "a", "b.bin"] "*").1 =
        Except.error "Failed to decode base64 data" ∧
     pathExists (write_file_binary demoFsRoot ["r", "a", "b.bin"] "*").2
        ["r", "a"] = true ∧
     fsLookup (write_file_binary demoFsRoot ["r", "a", "b.bin"] "*").2
        ["r", "a", "b.bin"] = none) := by
  refine ⟨?_, rfl, rfl, rfl⟩
  intro fs P data parent hpar hdec hok
  obtain ⟨hne, hdrop⟩ := parentOf_some P parent hpar
  have hlen : parent.length < P.length := by
    rw [hdrop, List.length_dropLast]
    cases P with
    | nil => exact absurd rfl hne
    | cons a l => simp
  refine ⟨?_, createDirAll_lookup fs parent P hlen⟩
  rcases hcd : createDirAll fs parent with ⟨r, fs2⟩
  rw [hcd] at hok
  simp only at hok
  subst hok
  simp [write_file_binary, hpar, hcd, hdec]

theorem write_binary_invalid_base64_witness :
    write_file_binary demoFsRoot ["r", "a", "b.bin"] "*" =
      (Except.error "Failed to decode base64 data",
        (createDirAll demoFsRoot ["r", "a"]).2) ∧
    fsLookup (createDirAll demoFsRoot ["r", "a"]).2 ["r", "a", "b.bin"] =
      fsLookup demoFsRoot ["r", "a", "b.bin"] :=
  write_binary_invalid_base64.1 demoFsRoot ["r", "a", "b.bin"] "*"
    ["r", "a"] rfl rfl rfl

theorem nodeLE_total (a b : FileNode) : nodeLE a b = true ∨ nodeLE b a = true := by
  unfold nodeLE
  cases ha : a.is_directory <;> cases hb : b.is_directory <;> simp <;>
    exact le_total _ _

theorem nodeLE_trans (a b c : FileNode) (hab : nodeLE a b = true)
    (hbc : nodeLE b c = true) : nodeLE a c = true := by
  unfold nodeLE at *
  cases ha : a.is_directory <;> cases hb : b.is_directory <;>
    cases hc : c.is_directory <;> simp_all <;> exact le_trans hab hbc

instance : IsTotal FileNode nodeR := ⟨fun a b => nodeLE_total a b⟩

instance : IsTrans FileNode nodeR := ⟨fun a b c => nodeLE_trans a b c⟩

theorem nodeR_imp (a b : FileNode) (h : nodeR a b) :
    (b.is_directory = true → a.is_directory = true) ∧
    (a.is_directory = b.is_directory → a.name.toLower ≤ b.name.toLower) := by
  unfold nodeR nodeLE at h
  cases ha : a.is_directory <;> cases hb : b.is_directory <;> simp_all

theorem levelOrdered_sortNodes (l : List FileNode) :
    levelOrdered (sortNodes l) := by
  have hs : List.Sorted nodeR (sortNodes l) :=
    List.sorted_insertionSort nodeR l
  exact List.Pairwise.imp (fun h => nodeR_imp _ _ h) hs

theorem mem_sortNodes {x : FileNode} {l : List FileNode} :
    x ∈ sortNodes l ↔ x ∈ l := by
  simp [sortNodes]

theorem buildNodes_sorted (recursive : Bool)
    (recurse : FsPath → Except String (List FileNode)) (p : FsPath)
    (hrec : ∀ q cs, recurse q = Except.ok cs →
      levelOrdered cs ∧ ∀ c ∈ cs, NodeSorted c) :
    ∀ (l : List (String × Entry)) (ns : List FileNode),
      buildNodes recursive recurse p l = Except.ok ns →
      ∀ node ∈ ns, NodeSorted node := by
  intro l
  induction l with
  | nil =>
    intro ns h node hn
    simp only [buildNodes] at h
    have h' : ([] : List FileNode) = ns := Except.ok.inj h
    rw [← h'] at hn
    cases hn
  | cons pr rest ih =>
    obtain ⟨n, e⟩ := pr
    intro ns h node hn
    cases hmeta : e.metaOk with
    | false => simp [buildNodes, hmeta] at h
    | true =>
      cases hdr : entryIsDir e && recursive with
      | true =>
        cases hr : recurse (p ++ [n]) with
        | error m => simp [buildNodes, hmeta, hdr, hr] at h
        | ok cs =>
          cases hb : buildNodes recursive recurse p rest with
          | error m => simp [buildNodes, hmeta, hdr, hr, hb] at h
          | ok nodes =>
            simp only [buildNodes, hmeta, hdr, hr, hb, if_true] at h
            have h' := Except.ok.inj h
            rw [← h'] at hn
            cases hn with
            | head =>
              exact NodeSorted.node _ _ _ _ _ _ (hrec _ _ hr).1 (hrec _ _ hr).2
            | tail _ hmem => exact ih nodes hb node hmem
      | false =>
        cases hb : buildNodes recursive recurse p rest with
        | error m => simp [buildNodes, hmeta, hdr, hb] at h
        | ok nodes =>
          simp only [buildNodes, hmeta, hdr, hb, if_true] at h
          have h' := Except.ok.inj h
          rw [← h'] at hn
          cases hn with
          | head => exact NodeSorted.leaf _ _ _ _ _
          | tail _ hmem => exact ih nodes hb node hmem

theorem buildNodes_shape (recursive : Bool)
    (recurse : FsPath → Except String (List FileNode)) (p : FsPath)
    (hrec : ∀ q cs, recurse q = Except.ok cs →
      ∀ c ∈ cs, ShapeOk recursive c) :
    ∀ (l : List (String × Entry)) (ns : List FileNode),
      buildNodes recursive recurse p l = Except.ok ns →
      ∀ node ∈ ns, ShapeOk recursive node := by
  intro l
  induction l with
  | nil =>
    intro ns h node hn
    simp only [buildNodes] at h
    have h' : ([] : List FileNode) = ns := Except.ok.inj h
    rw [← h'] at hn
    cases hn
  | cons pr rest ih =>
    obtain ⟨n, e⟩ := pr
    intro ns h node hn
    cases hmeta : e.metaOk with
    | false => simp [buildNodes, hmeta] at h
    | true =>
      cases hdr : entryIsDir e && recursive with
      | true =>
        cases hr : recurse (p ++ [n]) with
        | error m => simp [buildNodes, hmeta, hdr, hr] at h
        | ok cs =>
          cases hb : buildNodes recursive recurse p rest with
          | error m => simp [buildNodes, hmeta, hdr, hr, hb] at h
          | ok nodes =>
            simp only [buildNodes, hmeta, hdr, hr, hb, if_true] at h
            have h' := Except.ok.inj h
            rw [← h'] at hn
            cases hn with
            | head =>
              refine ShapeOk.mk _ _ _ _ _ _ (by simp [hdr]) ?_ ?_
              · cases hd : entryIsDir e <;> simp
              · intro l0 hl0 c hc
                rw [← Option.some.inj hl0] at hc
                exact hrec _ _ hr c hc
            | tail _ hmem => exact ih nodes hb node hmem
      | false =>
        cases hb : buildNodes recursive recurse p rest with
        | error m => simp [buildNodes, hmeta, hdr, hb] at h
        | ok nodes =>
          simp only [buildNodes, hmeta, hdr, hb, if_true] at h
          have h' := Except.ok.inj h
          rw [← h'] at hn
          cases hn with
          | head =>
            refine ShapeOk.mk _ _ _ _ _ _ (by simp [hdr]) ?_ ?_
            · cases hd : entryIsDir e <;> simp
            · intro l0 hl0
              cases hl0
          | tail _ hmem => exact ih nodes hb node hmem

theorem buildNodes_entries (recursive : Bool)
    (recurse : FsPath → Except String (List FileNode)) (p : FsPath) :
    ∀ (l : List (String × Entry)) (ns : List FileNode),
      buildNodes recursive recurse p l = Except.ok ns →
      ∀ n e, (n, e) ∈ l → e.metaOk = true ∧
        ((entryIsDir e && recursive) = true →
          ∃ cs, recurse (p ++ [n]) = Except.ok cs) := by
  intro l
  induction l with
  | nil =>
    intro ns _ n e hmem
    cases hmem
  | cons pr rest ih =>
    obtain ⟨n0, e0⟩ := pr
    intro ns h n e hmem
    cases hmeta : e0.metaOk with
    | false => simp [buildNodes, hmeta] at h
    | true =>
      cases hdr : entryIsDir e0 && recursive with
      | true =>
        cases hr : recurse (p ++ [n0]) with
        | error m => simp [buildNodes, hmeta, hdr, hr] at h
        | ok cs =>
          cases hb : buildNodes recursive recurse p rest with
          | error m => simp [buildNodes, hmeta, hdr, hr, hb] at h
          | ok nodes =>
            cases hmem with
            | head =>
              exact ⟨hmeta, fun _ => ⟨cs, hr⟩⟩
            | tail _ hmem2 => exact ih nodes hb n e hmem2
      | false =>
        cases hb : buildNodes recursive recurse p rest with
        | error m => simp [buildNodes, hmeta, hdr, hb] at h
        | ok nodes =>
          cases hmem with
          | head => exact ⟨hmeta, fun hcon => by rw [hdr] at hcon; cases hcon⟩
          | tail _ hmem2 => exact ih nodes hb n e hmem2

theorem read_directory_recursive_sorted (fs : Fs) (recursive : Bool) :
    ∀ (gas : Nat) (p : FsPath) (l : List FileNode),
      read_directory_recursive fs recursive gas p = Except.ok l →
      levelOrdered l ∧ ∀ c ∈ l, NodeSorted c := by
  intro gas
  induction gas with
  | zero =>
    intro p l h
    simp [read_directory_recursive] at h
  | succ gas ih =>
    intro p l h
    simp only [read_directory_recursive] at h
    cases hb : buildNodes recursive (read_directory_recursive fs recursive gas)
        p (childrenOf fs p) with
    | error m => rw [hb] at h; cases h
    | ok nodes =>
      rw [hb] at h
      have hl : l = sortNodes nodes := (Except.ok.inj h).symm
      subst hl
      refine ⟨levelOrdered_sortNodes nodes, ?_⟩
      intro c hc
      have hc' : c ∈ nodes := mem_sortNodes.mp hc
      exact buildNodes_sorted recursive _ p (fun q cs hq => ih q cs hq)
        (childrenOf fs p) nodes hb c hc'

theorem read_directory_recursive_shape (fs : Fs) (recursive : Bool) :
    ∀ (gas : Nat) (p : FsPath) (l : List FileNode),
      read_directory_recursive fs recursive gas p = Except.ok l →
      ∀ c ∈ l, ShapeOk recursive c := by
  intro gas
  induction gas with
  | zero =>
    intro p l h
    simp [read_directory_recursive] at h
  | succ gas ih =>
    intro p l h
    simp only [read_directory_recursive] at h
    cases hb : buildNodes recursive (read_directory_recursive fs recursive gas)
        p (childrenOf fs p) with
    | error m => rw [hb] at h; cases h
    | ok nodes =>
      rw [hb] at h
      have hl : l = sortNodes nodes := (Except.ok.inj h).symm
      subst hl
      intro c hc
      have hc' : c ∈ nodes := mem_sortNodes.mp hc
      exact buildNodes_shape recursive _ p (fun q cs hq => ih q cs hq)
        (childrenOf fs p) nodes hb c hc'

theorem badInEntries_exists (recurseB : FsPath → Bool) (recursive : Bool)
    (p : FsPath) :
    ∀ l, badInEntries recurseB recursive p l = true →
      ∃ n e, (n, e) ∈ l ∧ (e.metaOk = false ∨
        ((entryIsDir e && recursive) = true ∧ recurseB (p ++ [n]) = true)) := by
  intro l
  induction l with
  | nil => intro h; cases h
  | cons pr rest ih =>
    obtain ⟨n, e⟩ := pr
    intro h
    simp only [badInEntries, Bool.or_eq_true] at h
    rcases h with (h | h) | h
    · exact ⟨n, e, List.mem_cons_self _ _, Or.inl (by
        cases hm : e.metaOk
        · rfl
        · rw [hm] at h; cases h)⟩
    · have h2 : entryIsDir e = true ∧ recursive = true ∧
          recurseB (p ++ [n]) = true := by
        simpa [and_assoc] using h
      exact ⟨n, e, List.mem_cons_self _ _,
        Or.inr ⟨by simp [h2.1, h2.2.1], h2.2.2⟩⟩
    · obtain ⟨n1, e1, hmem, hbad⟩ := ih h
      exact ⟨n1, e1, List.mem_cons_of_mem _ hmem, hbad⟩

theorem badIn_error (fs : Fs) (recursive : Bool) :
    ∀ (gas : Nat) (p : FsPath), badIn fs recursive gas p = true →
      ∃ m, read_directory_recursive fs recursive gas p = Except.error m := by
  intro gas
  induction gas with
  | zero =>
    intro p h
    exact ⟨"Directory recursion limit exceeded", rfl⟩
  | succ gas ih =>
    intro p h
    simp only [badIn] at h
    cases hres : read_directory_recursive fs recursive (gas + 1) p with
    | error m => exact ⟨m, rfl⟩
    | ok l =>
      exfalso
      simp only [read_directory_recursive] at hres
      cases hb : buildNodes recursive
          (read_directory_recursive fs recursive gas) p (childrenOf fs p) with
      | error m => rw [hb] at hres; cases hres
      | ok nodes =>
        obtain ⟨n, e, hmem, hbad⟩ :=
          badInEntries_exists (badIn fs recursive gas) recursive p
            (childrenOf fs p) h
        obtain ⟨hmeta, hsub⟩ := buildNodes_entries recursive
          (read_directory_recursive fs recursive gas) p (childrenOf fs p)
          nodes hb n e hmem
        rcases hbad with hbad | ⟨hde, hrb⟩
        · rw [hmeta] at hbad; cases hbad
        · obtain ⟨cs, hcs⟩ := hsub hde
          obtain ⟨m, hm⟩ := ih (p ++ [n]) hrb
          rw [hm] at hcs
          cases hcs

/-- C5: every node list returned by `read_directory` — the top level and,
recursively, every children list at every depth — is sorted with directory
nodes before file nodes and, within each group, ascending by lowercased
name. -/
theorem read_directory_sorted_contract (fs : Fs) (gas : Nat) (path : FsPath)
    (recursive : Bool) (l : List FileNode)
    (h : read_directory fs gas path recursive = Except.ok l) :
    levelOrdered l ∧ ∀ c ∈ l, NodeSorted c := by
  simp only [read_directory] at h
  split at h
  · cases h
  · split at h
    · cases h
    · exact read_directory_recursive_sorted fs recursive gas path l h

/-- Demonstration filesystem for enumeration: a root `r` with two
subdirectories and two files of mixed case. -/
def demoFsTree : Fs :=
  [(["r"], dirE), (["r", "b.txt"], fileE [1, 2]), (["r", "A"], dirE),
   (["r", "zz"], dirE), (["r", "A", "x.md"], fileE [3]),
   (["r", "Cap.txt"], fileE [])]

theorem read_directory_sorted_contract_witness :
    ∃ l, read_directory demoFsTree 3 ["r"] true = Except.ok l ∧
      levelOrdered l ∧ ∀ c ∈ l, NodeSorted c :=
  ⟨_, rfl, read_directory_sorted_contract demoFsTree 3 ["r"] true _ rfl⟩

/-- C6: in every node produced by `read_directory`, at every depth, the
`children` field is present exactly when the node is a directory and the
call was recursive, and the `size` field is present exactly when the node is
a file. -/
theorem read_directory_shape_contract (fs : Fs) (gas : Nat) (path : FsPath)
    (recursive : Bool) (l : List FileNode)
    (h : read_directory fs gas path recursive = Except.ok l) :
    ∀ c ∈ l, ShapeOk recursive c := by
  simp only [read_directory] at h
  split at h
  · cases h
  · split at h
    · cases h
    · exact read_directory_recursive_shape fs recursive gas path l h

theorem read_directory_shape_contract_witness :
    ∃ l, read_directory demoFsTree 3 ["r"] false = Except.ok l ∧
      ∀ c ∈ l, ShapeOk false c :=
  ⟨_, rfl, read_directory_shape_contract demoFsTree 3 ["r"] false _ rfl⟩

/-- C8: if the traversed region of a `read_directory` call contains an entry
whose metadata cannot be read, the whole call returns an error — no partial
node list is ever returned. -/
theorem read_directory_all_or_nothing (fs : Fs) (gas : Nat) (path : FsPath)
    (recursive : Bool) (h : badIn fs recursive gas path = true) :
    ∃ m, read_directory fs gas path recursive = Except.error m := by
  simp only [read_directory]
  split
  · exact ⟨_, rfl⟩
  · split
    · exact ⟨_, rfl⟩
    · exact badIn_error fs recursive gas path h

/-- Demonstration filesystem with an unreadable entry two levels down. -/
def demoFsBad : Fs :=
  [(["r"], dirE), (["r", "ok.txt"], fileE [1]), (["r", "s"], dirE),
   (["r", "s", "bad"], badE)]

theorem read_directory_all_or_nothing_witness :
    ∃ m, read_directory demoFsBad 3 ["r"] true = Except.error m :=
  read_directory_all_or_nothing demoFsBad 3 ["r"] true rfl
